import Mathlib

/-!
Verification of the fast_poisson crate (src/lib.rs, src/iter.rs).

Modelling conventions:

* The crate float type `Float` (`f64` by default) is modelled by the rationals.
  All source arithmetic is field arithmetic except `Float::sqrt`, which we pass
  around explicitly as a function parameter `sqrtA : ℚ → ℚ`.  Theorems about
  concrete numeric behaviour add hypotheses that `sqrtA` behaves like a square
  root where they need it, so they hold in particular for the correctly rounded
  `f64` square root.
* The rand crate RNG (generic parameter `R: Rng + SeedableRng` in the source)
  is modelled by an abstract state type `σ` together with a record `RngOps` of
  the operations the source uses: `gen::<Float>()`, `gen_range(0..n)`,
  `sample(StandardNormal)` and `R::seed_from_u64`.  Universally quantifying
  over `RngOps` covers every RNG the source can be instantiated with;
  hypotheses such as "`gen` returns a value in `[0, 1)`" restate the rand
  crate contract where a theorem depends on it.  `R::from_entropy` is modelled
  by an explicit `entropy : σ` argument to `Iter.new`.
* The kiddo `KdTree` (an external dependency used purely as a set of points
  with an "is any stored point within squared distance d" query) is modelled
  by the list of stored points; `within::<SquaredEuclidean>(&p, d)` is the
  inclusive query "some stored point q has squared Euclidean distance ≤ d
  from p", and `add` is list cons.
-/

set_option maxHeartbeats 1000000

namespace FastPoisson

/-- The crate float type (`f64` without the `single_precision` feature),
modelled by the rationals. -/
abbrev Float := ℚ

/-- `Point<N> = [Float; N]` from src/iter.rs, modelled as a function out of
`Fin N`. -/
abbrev Point (N : ℕ) := Fin N → Float

/-- The all-zeroes point `[0.0; N]`. -/
def zeroPoint (N : ℕ) : Point N := fun _ => 0

/-- Squared Euclidean distance, the `SquaredEuclidean` metric of the kiddo
crate used by `Iter::in_neighborhood`. -/
def sqDist {N : ℕ} (p q : Point N) : ℚ := ∑ i, (p i - q i) ^ 2

/-- Model of the rand crate interface consumed by the source: a state type
`σ` plus the four operations the crate actually calls on its RNG. -/
structure RngOps (σ : Type) where
  genFloat : σ → Float × σ
  genRange : σ → ℕ → ℕ × σ
  sampleNormal : σ → Float × σ
  seedFrom : ℕ → σ

/-- The `Poisson` configuration struct from src/lib.rs (the `PhantomData`
marker field carries no data and is omitted; the RNG type parameter `R` shows
up as the state type `σ` of the `RngOps` handed to `Iter` functions). -/
structure Poisson (N : ℕ) (U : Type) where
  validate : Point N → U → Bool
  validate_user_data : U
  radius : Float
  seed : Option ℕ
  num_samples : ℕ

/-- `Default for Poisson` from src/lib.rs: the box predicate
`p.iter().all(|&n| n >= 0.0 && n < 1.0)`, radius `0.1`, no seed, 30 samples. -/
def Poisson.defaultCfg (N : ℕ) (U : Type) [Inhabited U] : Poisson N U where
  validate := fun p _ => decide (∀ i, 0 ≤ p i ∧ p i < 1)
  validate_user_data := default
  radius := 1 / 10
  seed := none
  num_samples := 30

/-- `Poisson::with_radius` from src/lib.rs. -/
def Poisson.with_radius {N : ℕ} {U : Type} (p : Poisson N U) (radius : Float) :
    Poisson N U :=
  { p with radius := radius }

/-- `Poisson::with_seed` from src/lib.rs. -/
def Poisson.with_seed {N : ℕ} {U : Type} (p : Poisson N U) (seed : ℕ) :
    Poisson N U :=
  { p with seed := some seed }

/-- `Poisson::with_samples` from src/lib.rs. -/
def Poisson.with_samples {N : ℕ} {U : Type} (p : Poisson N U) (samples : ℕ) :
    Poisson N U :=
  { p with num_samples := samples }

/-- `Poisson::with_validate` from src/lib.rs. -/
def Poisson.with_validate {N : ℕ} {U : Type} (p : Poisson N U)
    (func : Point N → U → Bool) (user_data : U) : Poisson N U :=
  { p with validate := func, validate_user_data := user_data }

/-- `PartialEq for Poisson` from src/lib.rs (lines 439-451): equal only when
both seeds are set and radius, seed and num_samples agree. -/
def Poisson.eq {N : ℕ} {U : Type} (self other : Poisson N U) : Bool :=
  self.seed.isSome && (other.seed.isSome &&
    (decide (self.radius = other.radius) && (decide (self.seed = other.seed) &&
      decide (self.num_samples = other.num_samples))))

/-- The `Iter` struct from src/iter.rs.  The kiddo tree `sampled` is modelled
by the list of points stored in it. -/
structure Iter (N : ℕ) (U : Type) (σ : Type) where
  distribution : Poisson N U
  rng : σ
  sampled : List (Point N)
  active : List (Point N)

/-- Draw `n` values in order by iterating a stateful draw function, as the
source `for` loops over coordinates do. -/
def drawList {σ : Type} (f : σ → ℚ × σ) : ℕ → σ → List ℚ × σ
  | 0, s => ([], s)
  | n + 1, s =>
      let t := f s
      let r := drawList f n t.2
      (t.1 :: r.1, r.2)

/-- `Iter::new` from src/iter.rs: seed the RNG (from the configured seed, or
from entropy), build the initial point with coordinates
`(0.5 - rng.gen::<Float>()) * radius`, and start with an empty kd-tree and the
initial point alone in the active list. -/
def Iter.new {N : ℕ} {U σ : Type} (ops : RngOps σ) (distribution : Poisson N U)
    (entropy : σ) : Iter N U σ :=
  let rng : σ :=
    match distribution.seed with
    | none => entropy
    | some seed => ops.seedFrom seed
  let fp := drawList ops.genFloat N rng
  let first_point : Point N := fun i => (1 / 2 - fp.1.getD i.val 0) * distribution.radius
  { distribution := distribution, rng := fp.2, sampled := [], active := [first_point] }

/-- `Iter::add_point` from src/iter.rs: push onto the active list and insert
into the kd-tree. -/
def Iter.add_point {N : ℕ} {U σ : Type} (it : Iter N U σ) (point : Point N) :
    Iter N U σ :=
  { it with active := it.active ++ [point], sampled := point :: it.sampled }

/-- `Iter::generate_random_point` from src/iter.rs: pick
`dist = radius * (1 + gen())`, draw `N` standard normal coordinates, and
translate `around` by `dist / mag` times the drawn vector, where `mag` is the
square root of the vector squared norm. -/
def generate_random_point {N : ℕ} {σ : Type} (ops : RngOps σ) (sqrtA : ℚ → ℚ)
    (radius : ℚ) (rng : σ) (around : Point N) : Point N × σ :=
  let d := ops.genFloat rng
  let dist := radius * (1 + d.1)
  let vr := drawList ops.sampleNormal N d.2
  let mag := sqrtA ((vr.1.map fun x => x ^ 2).sum)
  let translate := dist / mag
  (fun i => around i + vr.1.getD i.val 0 * translate, vr.2)

/-- `Iter::in_space` from src/iter.rs: apply the validation predicate to the
point and the user data. -/
def Iter.in_space {N : ℕ} {U σ : Type} (it : Iter N U σ) (point : Point N) :
    Bool :=
  it.distribution.validate point it.distribution.validate_user_data

/-- `Iter::in_neighborhood` from src/iter.rs: true when some stored sample has
squared Euclidean distance at most `radius^2` from the point (the kiddo
`within` query on the modelled tree). -/
def Iter.in_neighborhood {N : ℕ} {U σ : Type} (it : Iter N U σ)
    (point : Point N) : Bool :=
  it.sampled.any fun q => decide (sqDist point q ≤ it.distribution.radius ^ 2)

/-- `Vec::swap_remove(i)`: overwrite index `i` with the last element and drop
the last element.  On the empty list (which the source never reaches, since it
only removes from a non-empty active list) it returns the empty list. -/
def swapRemove {α : Type} (l : List α) (i : ℕ) : List α :=
  match l.getLast? with
  | none => []
  | some a => (l.set i a).dropLast

/-- The inner `for _ in 0..num_samples` loop of `Iter::next`: up to `fuel`
times, generate a candidate around `active[i]` and accept it if it is in
space and not in the neighborhood of a stored sample. -/
def tryCandidates {N : ℕ} {U σ : Type} (ops : RngOps σ) (sqrtA : ℚ → ℚ)
    (it : Iter N U σ) (i : ℕ) : ℕ → Option (Point N) × Iter N U σ
  | 0 => (none, it)
  | fuel + 1 =>
      let pr := generate_random_point ops sqrtA it.distribution.radius it.rng
        (it.active.getD i (zeroPoint N))
      let it1 : Iter N U σ := { it with rng := pr.2 }
      if it1.in_space pr.1 && !it1.in_neighborhood pr.1 then
        (some pr.1, it1.add_point pr.1)
      else
        tryCandidates ops sqrtA it1 i fuel

/-- The `while !self.active.is_empty()` loop of `Iter::next`, with explicit
fuel.  Each round draws an index into the active list, runs the candidate
loop, and on failure swap-removes the chosen index and continues.  Every
failed round strictly shrinks the active list, so fuel `active.length` always
suffices (`nextLoop_fuel` below). -/
def nextLoop {N : ℕ} {U σ : Type} (ops : RngOps σ) (sqrtA : ℚ → ℚ) :
    Iter N U σ → ℕ → Option (Point N) × Iter N U σ
  | it, 0 => (none, it)
  | it, fuel + 1 =>
      if it.active.isEmpty then (none, it)
      else
        let ir := ops.genRange it.rng it.active.length
        let it1 : Iter N U σ := { it with rng := ir.2 }
        let res := tryCandidates ops sqrtA it1 ir.1 it1.distribution.num_samples
        match res.1 with
        | some p => (some p, res.2)
        | none => nextLoop ops sqrtA { res.2 with active := swapRemove res.2.active ir.1 } fuel

/-- `Iterator::next` for `Iter` from src/iter.rs. -/
def Iter.next {N : ℕ} {U σ : Type} (ops : RngOps σ) (sqrtA : ℚ → ℚ)
    (it : Iter N U σ) : Option (Point N) × Iter N U σ :=
  nextLoop ops sqrtA it it.active.length

/-- The iterator state after `n` pulls starting from `it0`. -/
def pulls {N : ℕ} {U σ : Type} (ops : RngOps σ) (sqrtA : ℚ → ℚ)
    (it0 : Iter N U σ) : ℕ → Iter N U σ
  | 0 => it0
  | n + 1 => (Iter.next ops sqrtA (pulls ops sqrtA it0 n)).2

/-- The value returned by the `(n+1)`-st pull starting from `it0`. -/
def pullResult {N : ℕ} {U σ : Type} (ops : RngOps σ) (sqrtA : ℚ → ℚ)
    (it0 : Iter N U σ) (n : ℕ) : Option (Point N) :=
  (Iter.next ops sqrtA (pulls ops sqrtA it0 n)).1

/-- The points emitted by the first `n` pulls starting from `it0`, in
emission order. -/
def emitted {N : ℕ} {U σ : Type} (ops : RngOps σ) (sqrtA : ℚ → ℚ)
    (it0 : Iter N U σ) (n : ℕ) : List (Point N) :=
  (List.range n).filterMap (pullResult ops sqrtA it0)

/-- The points emitted by the first `n` pulls of a freshly constructed
iterator for `cfg`: the length-`n` prefix view of `Poisson::generate` from
src/lib.rs (which is `self.iter().collect()`). -/
def emitN {N : ℕ} {U σ : Type} (ops : RngOps σ) (sqrtA : ℚ → ℚ)
    (cfg : Poisson N U) (entropy : σ) (n : ℕ) : List (Point N) :=
  emitted ops sqrtA (Iter.new ops cfg entropy) n

/-- A point at list distance: build a point of `Fin N → ℚ` from a list of
coordinates. -/
def mkPoint (N : ℕ) (l : List ℚ) : Point N := fun i => l.getD i.val 0

/-- The synthetic initial point placed in the active list by `Iter::new`. -/
def firstPoint {N : ℕ} {U σ : Type} (ops : RngOps σ) (cfg : Poisson N U)
    (entropy : σ) : Point N :=
  (Iter.new ops cfg entropy).active.headD (zeroPoint N)

section Lemmas

variable {N : ℕ} {U σ : Type}

theorem sqDist_comm (p q : Point N) : sqDist p q = sqDist q p := by
  unfold sqDist
  apply Finset.sum_congr rfl
  intro i _
  ring

theorem sqDist_nonneg (p q : Point N) : 0 ≤ sqDist p q := by
  unfold sqDist
  apply Finset.sum_nonneg
  intro i _
  positivity

theorem sqDist_self (p : Point N) : sqDist p p = 0 := by
  unfold sqDist
  apply Finset.sum_eq_zero
  intro i _
  ring

theorem swapRemove_length (l : List α) (i : ℕ) (h : l ≠ []) :
    (swapRemove l i).length = l.length - 1 := by
  unfold swapRemove
  cases hl : l.getLast? with
  | none => exact absurd (List.getLast?_eq_none_iff.mp hl) h
  | some a => simp

theorem swapRemove_subset (l : List α) (i : ℕ) : swapRemove l i ⊆ l := by
  intro x hx
  unfold swapRemove at hx
  cases hl : l.getLast? with
  | none =>
    rw [hl] at hx
    simp at hx
  | some a =>
    rw [hl] at hx
    have hx' := List.dropLast_subset _ hx
    rcases List.mem_or_eq_of_mem_set hx' with h | h
    · exact h
    · subst h
      have hne : l ≠ [] := by
        intro hnil
        rw [hnil] at hl
        simp at hl
      rw [List.getLast?_eq_getLast l hne] at hl
      injection hl with ha
      rw [← ha]
      exact List.getLast_mem hne

variable (ops : RngOps σ) (sqrtA : ℚ → ℚ)

theorem tryCandidates_characterize (i : ℕ) :
    ∀ (fuel : ℕ) (it : Iter N U σ),
      (((tryCandidates ops sqrtA it i fuel).1 = none ∧
          (tryCandidates ops sqrtA it i fuel).2.sampled = it.sampled ∧
          (tryCandidates ops sqrtA it i fuel).2.active = it.active) ∨
        (∃ p, (tryCandidates ops sqrtA it i fuel).1 = some p ∧
          (tryCandidates ops sqrtA it i fuel).2.sampled = p :: it.sampled ∧
          (tryCandidates ops sqrtA it i fuel).2.active = it.active ++ [p] ∧
          it.distribution.validate p it.distribution.validate_user_data = true ∧
          ∀ q ∈ it.sampled, ¬ sqDist p q ≤ it.distribution.radius ^ 2)) ∧
      (tryCandidates ops sqrtA it i fuel).2.distribution = it.distribution := by
  intro fuel
  induction fuel with
  | zero => intro it; exact ⟨Or.inl ⟨rfl, rfl, rfl⟩, rfl⟩
  | succ fuel ih =>
    intro it
    rw [tryCandidates]
    split
    · next hc =>
      have hc' : ∀ q ∈ it.sampled,
          ¬ sqDist (generate_random_point ops sqrtA it.distribution.radius it.rng
            (it.active.getD i (zeroPoint N))).1 q ≤ it.distribution.radius ^ 2 := by
        have hn : (⟨it.distribution,
            (generate_random_point ops sqrtA it.distribution.radius it.rng
              (it.active.getD i (zeroPoint N))).2, it.sampled,
            it.active⟩ : Iter N U σ).in_neighborhood
            (generate_random_point ops sqrtA it.distribution.radius it.rng
              (it.active.getD i (zeroPoint N))).1 = false := by
          rcases Bool.and_eq_true_iff.mp hc with ⟨_, hn⟩
          simpa using hn
        intro q hq hle
        have : ((⟨it.distribution,
            (generate_random_point ops sqrtA it.distribution.radius it.rng
              (it.active.getD i (zeroPoint N))).2, it.sampled,
            it.active⟩ : Iter N U σ).in_neighborhood
            (generate_random_point ops sqrtA it.distribution.radius it.rng
              (it.active.getD i (zeroPoint N))).1) = true := by
          unfold Iter.in_neighborhood
          simp only [List.any_eq_true]
          exact ⟨q, hq, by simpa using hle⟩
        rw [hn] at this
        exact Bool.false_ne_true this
      have hs : it.distribution.validate
          (generate_random_point ops sqrtA it.distribution.radius it.rng
            (it.active.getD i (zeroPoint N))).1 it.distribution.validate_user_data = true := by
        rcases Bool.and_eq_true_iff.mp hc with ⟨hs, _⟩
        exact hs
      exact ⟨Or.inr ⟨_, rfl, rfl, rfl, hs, hc'⟩, rfl⟩
    · next hc =>
      exact ih _

theorem nextLoop_characterize :
    ∀ (fuel : ℕ) (it : Iter N U σ),
      (((nextLoop ops sqrtA it fuel).1 = none ∧
          (nextLoop ops sqrtA it fuel).2.sampled = it.sampled ∧
          (nextLoop ops sqrtA it fuel).2.active ⊆ it.active ∧
          (it.active.length ≤ fuel → (nextLoop ops sqrtA it fuel).2.active = [])) ∨
        (∃ p, (nextLoop ops sqrtA it fuel).1 = some p ∧
          (nextLoop ops sqrtA it fuel).2.sampled = p :: it.sampled ∧
          it.distribution.validate p it.distribution.validate_user_data = true ∧
          ∀ q ∈ it.sampled, ¬ sqDist p q ≤ it.distribution.radius ^ 2)) ∧
      (nextLoop ops sqrtA it fuel).2.distribution = it.distribution := by
  intro fuel
  induction fuel with
  | zero =>
    intro it
    refine ⟨Or.inl ⟨rfl, rfl, List.Subset.refl _, ?_⟩, rfl⟩
    intro hlen
    rw [nextLoop]
    exact List.eq_nil_of_length_eq_zero (Nat.le_zero.mp hlen)
  | succ fuel ih =>
    intro it
    by_cases hemp : it.active.isEmpty
    · rw [nextLoop, if_pos hemp]
      exact ⟨Or.inl ⟨rfl, rfl, List.Subset.refl _,
        fun _ => List.isEmpty_iff.mp hemp⟩, rfl⟩
    · have hne : it.active ≠ [] := fun h => hemp (by simp [h])
      simp only [nextLoop, if_neg hemp]
      set i0 := (ops.genRange it.rng it.active.length).1 with hi0
      set it1 : Iter N U σ :=
        ⟨it.distribution, (ops.genRange it.rng it.active.length).2, it.sampled,
          it.active⟩ with hit1
      set res := tryCandidates ops sqrtA it1 i0 it.distribution.num_samples with hresdef
      have hchar := tryCandidates_characterize ops sqrtA i0
        it.distribution.num_samples it1
      rw [← hresdef] at hchar
      rcases hchar with ⟨hout, hdist⟩
      rcases hout with ⟨hnone, hsam, hact⟩ | ⟨p, hp, hsam, hact, hval, hsep⟩
      · rw [hnone]
        set it2 : Iter N U σ := { res.2 with active := swapRemove res.2.active i0 }
          with hit2
        have h2sam : it2.sampled = it.sampled := hsam
        have h2act : it2.active = swapRemove it.active i0 := by
          rw [hit2]
          show swapRemove res.2.active i0 = swapRemove it.active i0
          rw [hact]
        have h2dist : it2.distribution = it.distribution := hdist
        have h2len : it2.active.length = it.active.length - 1 := by
          rw [h2act, swapRemove_length _ _ hne]
        rcases ih it2 with ⟨hout2, hdist2⟩
        constructor
        · rcases hout2 with ⟨hn2, hs2, hsub2, he2⟩ | ⟨p, hp2, hs2, hval2, hsep2⟩
          · left
            refine ⟨hn2, by rw [hs2, h2sam], ?_, ?_⟩
            · intro x hx
              have hx2 := hsub2 hx
              rw [h2act] at hx2
              exact swapRemove_subset _ _ hx2
            · intro hlen
              apply he2
              rw [h2len]
              omega
          · right
            refine ⟨p, hp2, by rw [hs2, h2sam], ?_, ?_⟩
            · rw [h2dist] at hval2
              exact hval2
            · rw [h2sam, h2dist] at hsep2
              exact hsep2
        · rw [hdist2, h2dist]
      · rw [hp]
        exact ⟨Or.inr ⟨p, rfl, hsam, hval, hsep⟩, hdist⟩

theorem nextLoop_fuel :
    ∀ (fuel : ℕ) (it : Iter N U σ), it.active.length ≤ fuel →
      nextLoop ops sqrtA it fuel = Iter.next ops sqrtA it := by
  intro fuel
  induction fuel with
  | zero =>
    intro it hlen
    have h0 : it.active.length = 0 := Nat.le_zero.mp hlen
    rw [Iter.next, h0]
  | succ fuel ih =>
    intro it hlen
    by_cases hemp : it.active.isEmpty
    · have h0 : it.active.length = 0 := by
        rw [List.isEmpty_iff.mp hemp]
        rfl
      rw [Iter.next, h0]
      rw [nextLoop]
      rw [nextLoop, if_pos hemp]
    · have hne : it.active ≠ [] := fun h => hemp (by simp [h])
      obtain ⟨k, hk⟩ : ∃ k, it.active.length = k + 1 := by
        cases h : it.active.length with
        | zero => exact absurd (List.eq_nil_of_length_eq_zero h) hne
        | succ k => exact ⟨k, rfl⟩
      rw [Iter.next, hk]
      simp only [nextLoop, if_neg hemp]
      set i0 := (ops.genRange it.rng it.active.length).1 with hi0
      set it1 : Iter N U σ :=
        ⟨it.distribution, (ops.genRange it.rng it.active.length).2, it.sampled,
          it.active⟩ with hit1
      set res := tryCandidates ops sqrtA it1 i0 it.distribution.num_samples with hresdef
      cases hres : res.1 with
      | some p => simp only [hres]
      | none =>
        simp only [hres]
        set it2 : Iter N U σ := { res.2 with active := swapRemove res.2.active i0 }
          with hit2
        have hact : res.2.active = it.active := by
          have hchar := (tryCandidates_characterize ops sqrtA i0
            it.distribution.num_samples it1).1
          rw [← hresdef] at hchar
          rcases hchar with ⟨_, _, h⟩ | ⟨p, hp, _⟩
          · exact h
          · rw [hres] at hp
            exact absurd hp (by simp)
        have h2len : it2.active.length = k := by
          rw [hit2]
          show (swapRemove _ _).length = k
          rw [hact, swapRemove_length _ _ hne, hk]
          omega
        have e1 : nextLoop ops sqrtA it2 fuel = Iter.next ops sqrtA it2 := by
          apply ih
          rw [h2len]
          omega
        have e2 : nextLoop ops sqrtA it2 k = Iter.next ops sqrtA it2 := by
          rw [Iter.next, h2len]
        rw [e1, e2]

theorem next_distribution (it : Iter N U σ) :
    (Iter.next ops sqrtA it).2.distribution = it.distribution :=
  (nextLoop_characterize ops sqrtA it.active.length it).2

theorem next_none (it : Iter N U σ) (h : (Iter.next ops sqrtA it).1 = none) :
    (Iter.next ops sqrtA it).2.sampled = it.sampled ∧
      (Iter.next ops sqrtA it).2.active = [] ∧
      (Iter.next ops sqrtA it).2.active ⊆ it.active := by
  rcases (nextLoop_characterize ops sqrtA it.active.length it).1 with
    ⟨_, hs, hsub, he⟩ | ⟨p, hp, _⟩
  · exact ⟨hs, he (le_refl _), hsub⟩
  · rw [Iter.next] at h
    rw [h] at hp
    exact absurd hp (by simp)

theorem next_some (it : Iter N U σ) (p : Point N)
    (h : (Iter.next ops sqrtA it).1 = some p) :
    (Iter.next ops sqrtA it).2.sampled = p :: it.sampled ∧
      it.distribution.validate p it.distribution.validate_user_data = true ∧
      ∀ q ∈ it.sampled, ¬ sqDist p q ≤ it.distribution.radius ^ 2 := by
  rcases (nextLoop_characterize ops sqrtA it.active.length it).1 with
    ⟨hn, _⟩ | ⟨p', hp', hs, hval, hsep⟩
  · rw [Iter.next] at h
    rw [h] at hn
    exact absurd hn (by simp)
  · rw [Iter.next] at h
    rw [h] at hp'
    have : p = p' := by injection hp'
    subst this
    exact ⟨hs, hval, hsep⟩

theorem next_empty (it : Iter N U σ) (h : it.active = []) :
    Iter.next ops sqrtA it = (none, it) := by
  rw [Iter.next, h]
  rfl

theorem tryCandidates_accept (it : Iter N U σ) (i fuel : ℕ) (p : Point N)
    (rng2 : σ)
    (hgen : generate_random_point ops sqrtA it.distribution.radius it.rng
      (it.active.getD i (zeroPoint N)) = (p, rng2))
    (hsp : it.distribution.validate p it.distribution.validate_user_data = true)
    (hnb : (⟨it.distribution, rng2, it.sampled, it.active⟩ : Iter N U σ).in_neighborhood p
      = false) :
    tryCandidates ops sqrtA it i (fuel + 1) =
      (some p, ⟨it.distribution, rng2, p :: it.sampled, it.active ++ [p]⟩) := by
  rw [tryCandidates]
  simp only [hgen]
  have hsp' : (⟨it.distribution, rng2, it.sampled, it.active⟩ : Iter N U σ).in_space p
      = true := hsp
  rw [hsp', hnb]
  simp [Iter.add_point]

theorem nextLoop_step_some (it it2 : Iter N U σ) (fuel i : ℕ) (rng2 : σ)
    (p : Point N)
    (hne : it.active.isEmpty = false)
    (hr : ops.genRange it.rng it.active.length = (i, rng2))
    (htc : tryCandidates ops sqrtA ⟨it.distribution, rng2, it.sampled, it.active⟩ i
      it.distribution.num_samples = (some p, it2)) :
    nextLoop ops sqrtA it (fuel + 1) = (some p, it2) := by
  rw [nextLoop, if_neg (by rw [hne]; exact Bool.false_ne_true)]
  simp only [hr, htc]

theorem nextLoop_step_none (it it2 : Iter N U σ) (fuel i : ℕ) (rng2 : σ)
    (hne : it.active.isEmpty = false)
    (hr : ops.genRange it.rng it.active.length = (i, rng2))
    (htc : tryCandidates ops sqrtA ⟨it.distribution, rng2, it.sampled, it.active⟩ i
      it.distribution.num_samples = (none, it2)) :
    nextLoop ops sqrtA it (fuel + 1) =
      nextLoop ops sqrtA { it2 with active := swapRemove it2.active i } fuel := by
  rw [nextLoop, if_neg (by rw [hne]; exact Bool.false_ne_true)]
  simp only [hr, htc]

theorem drawList_length (f : σ → ℚ × σ) : ∀ (n : ℕ) (s : σ),
    (drawList f n s).1.length = n := by
  intro n
  induction n with
  | zero => intro s; rfl
  | succ n ih =>
    intro s
    simp only [drawList, List.length_cons]
    rw [ih]

theorem drawList_mem (f : σ → ℚ × σ) (P : ℚ → Prop) (hP : ∀ s, P (f s).1) :
    ∀ (n : ℕ) (s : σ) (x : ℚ), x ∈ (drawList f n s).1 → P x := by
  intro n
  induction n with
  | zero => intro s x hx; simp [drawList] at hx
  | succ n ih =>
    intro s x hx
    simp only [drawList, List.mem_cons] at hx
    rcases hx with h | h
    · rw [h]
      exact hP s
    · exact ih _ x h

theorem sum_map_sq_eq : ∀ (l : List ℚ),
    ((l.map fun x => x ^ 2).sum) = ∑ i : Fin l.length, (l.getD i.val 0) ^ 2 := by
  intro l
  induction l with
  | nil => simp
  | cons a l ih =>
    simp only [List.map_cons, List.sum_cons, List.length_cons]
    rw [Fin.sum_univ_succ, ih]
    simp

theorem nextLoop_empty_active (it : Iter N U σ) (h : it.active = []) :
    ∀ fuel, nextLoop ops sqrtA it fuel = (none, it) := by
  intro fuel
  cases fuel with
  | zero => rfl
  | succ fuel => rw [nextLoop, if_pos (by simp [h])]

theorem tryCandidates_some_src (i : ℕ) :
    ∀ (fuel : ℕ) (it : Iter N U σ) (p : Point N) (it2 : Iter N U σ),
      tryCandidates ops sqrtA it i fuel = (some p, it2) →
      ∃ s, p = (generate_random_point ops sqrtA it.distribution.radius s
        (it.active.getD i (zeroPoint N))).1 := by
  intro fuel
  induction fuel with
  | zero =>
    intro it p it2 h
    exact absurd h (by simp [tryCandidates])
  | succ fuel ih =>
    intro it p it2 h
    rw [tryCandidates] at h
    split at h
    · next hc =>
      refine ⟨it.rng, ?_⟩
      have h1 := (Prod.ext_iff.mp h).1
      exact (Option.some.inj h1).symm
    · next hc =>
      have hres := ih _ p it2 h
      exact hres

theorem swapRemove_singleton (a : α) (i : ℕ) : swapRemove [a] i = [] := by
  unfold swapRemove
  cases i with
  | zero => rfl
  | succ i => simp

theorem nextLoop_singleton_some (it : Iter N U σ) (a : Point N)
    (ha : it.active = [a]) (fuel : ℕ) (p : Point N)
    (hRange : ∀ s n, 0 < n → (ops.genRange s n).1 < n)
    (h : (nextLoop ops sqrtA it (fuel + 1)).1 = some p) :
    ∃ s, p = (generate_random_point ops sqrtA it.distribution.radius s a).1 := by
  have hemp : ¬ (it.active.isEmpty = true) := by simp [ha]
  rw [nextLoop, if_neg hemp] at h
  simp only at h
  set i0 := (ops.genRange it.rng it.active.length).1 with hi0
  set it1 : Iter N U σ :=
    ⟨it.distribution, (ops.genRange it.rng it.active.length).2, it.sampled,
      it.active⟩ with hit1
  set res := tryCandidates ops sqrtA it1 i0 it.distribution.num_samples with hresdef
  have hlen1 : it.active.length = 1 := by rw [ha]; rfl
  have hi0lt : i0 < 1 := by
    have h2 := hRange it.rng it.active.length (by omega)
    rw [← hi0] at h2
    omega
  have hi00 : i0 = 0 := by omega
  cases hres : res.1 with
  | some q =>
    rw [hres] at h
    simp only at h
    have hq : q = p := by
      simpa using h
    subst hq
    obtain ⟨s, hs⟩ := tryCandidates_some_src ops sqrtA i0
      it.distribution.num_samples it1 q res.2 (by rw [← hresdef, ← hres])
    refine ⟨s, ?_⟩
    rw [hs]
    have : it1.active.getD i0 (zeroPoint N) = a := by
      show it.active.getD i0 (zeroPoint N) = a
      rw [ha, hi00]
      rfl
    rw [this]
  | none =>
    rw [hres] at h
    simp only at h
    have hact : res.2.active = it.active := by
      have hchar := (tryCandidates_characterize ops sqrtA i0
        it.distribution.num_samples it1).1
      rw [← hresdef] at hchar
      rcases hchar with ⟨_, _, h'⟩ | ⟨q, hq, _⟩
      · exact h'
      · rw [hres] at hq
        exact absurd hq (by simp)
    have hact2 : swapRemove res.2.active i0 = [] := by
      rw [hact, ha]
      exact swapRemove_singleton a i0
    rw [nextLoop_empty_active ops sqrtA _ hact2 fuel] at h
    exact absurd h (by simp)

theorem grp_sqDist_ge (radius : ℚ) (s : σ) (around : Point N) (κ : ℚ)
    (hN : 0 < N) (hr : 0 < radius) (hκ : 0 < κ)
    (hFloat : ∀ t, 0 ≤ (ops.genFloat t).1)
    (hNorm : ∀ t, (ops.sampleNormal t).1 ≠ 0)
    (hS : ∀ x : ℚ, 0 < x → 0 < sqrtA x ∧ sqrtA x ^ 2 ≤ κ * x) :
    radius ^ 2 / κ ≤
      sqDist ((generate_random_point ops sqrtA radius s around).1) around := by
  unfold generate_random_point
  set u := (ops.genFloat s).1 with hu
  set v := (drawList ops.sampleNormal N (ops.genFloat s).2).1 with hv
  set m := (v.map fun x => x ^ 2).sum with hm
  set dist := radius * (1 + u) with hdist
  set t := dist / sqrtA m with ht
  have hvlen : v.length = N := drawList_length ops.sampleNormal N _
  have hsq : sqDist (fun i => around i + v.getD i.val 0 * t) around = t ^ 2 * m := by
    unfold sqDist
    have : ∀ i : Fin N, (around i + v.getD i.val 0 * t - around i) ^ 2
        = t ^ 2 * (v.getD i.val 0) ^ 2 := by
      intro i
      ring
    rw [Finset.sum_congr rfl fun i _ => this i, ← Finset.mul_sum]
    have hms : m = ∑ i : Fin N, (v.getD i.val 0) ^ 2 := by
      rw [hm, sum_map_sq_eq v]
      exact Fintype.sum_equiv (finCongr hvlen) _ _ (fun i => rfl)
    rw [hms]
  show radius ^ 2 / κ ≤ sqDist (fun i => around i + v.getD i.val 0 * t) around
  rw [hsq]
  have hmpos : 0 < m := by
    obtain ⟨a, v', hv'⟩ : ∃ a v', v = a :: v' := by
      cases hvv : v with
      | nil =>
        rw [hvv] at hvlen
        simp at hvlen
        omega
      | cons a v' => exact ⟨a, v', rfl⟩
    have ha : a ≠ 0 := by
      have hmem : a ∈ v := by rw [hv']; exact List.mem_cons_self _ _
      have := drawList_mem ops.sampleNormal (fun x => x ≠ 0) hNorm N
        (ops.genFloat s).2 a (by rw [← hv]; exact hmem)
      exact this
    have hrest : 0 ≤ (v'.map fun x => x ^ 2).sum := by
      apply List.sum_nonneg
      intro x hx
      rcases List.mem_map.mp hx with ⟨y, _, rfl⟩
      positivity
    rw [hm, hv']
    simp only [List.map_cons, List.sum_cons]
    have ha2 : 0 < a ^ 2 := by positivity
    linarith
  obtain ⟨hμpos, hμ2⟩ := hS m hmpos
  set μ := sqrtA m with hμ
  have hdistr : radius ≤ dist := by
    have hu0 : 0 ≤ u := hFloat s
    rw [hdist]
    nlinarith
  have hd2 : radius ^ 2 ≤ dist ^ 2 := by nlinarith
  rw [ht, div_pow, div_mul_eq_mul_div, div_le_div_iff hκ (by positivity)]
  have h1 : radius ^ 2 * μ ^ 2 ≤ radius ^ 2 * (κ * m) := by nlinarith
  have h2 : radius ^ 2 * (κ * m) ≤ dist ^ 2 * m * κ := by nlinarith
  linarith

theorem firstPoint_bounds (cfg : Poisson N U) (entropy : σ)
    (hr : 0 < cfg.radius)
    (hFloat : ∀ s, 0 ≤ (ops.genFloat s).1 ∧ (ops.genFloat s).1 < 1) :
    ∀ i, -(cfg.radius / 2) < firstPoint ops cfg entropy i ∧
      firstPoint ops cfg entropy i ≤ cfg.radius / 2 := by
  intro i
  have hfp : firstPoint ops cfg entropy i
      = (1 / 2 - (drawList ops.genFloat N
          (match cfg.seed with
           | none => entropy
           | some seed => ops.seedFrom seed)).1.getD i.val 0) * cfg.radius := rfl
  rw [hfp]
  set s0 := (match cfg.seed with
    | none => entropy
    | some seed => ops.seedFrom seed) with hs0
  set u := (drawList ops.genFloat N s0).1.getD i.val 0 with hu
  have hmem : u ∈ (drawList ops.genFloat N s0).1 := by
    rw [hu]
    have hilt : i.val < (drawList ops.genFloat N s0).1.length := by
      rw [drawList_length]
      exact i.isLt
    rw [List.getD_eq_getElem _ 0 hilt]
    exact List.getElem_mem hilt
  have hub := drawList_mem ops.genFloat (fun x => 0 ≤ x ∧ x < 1)
    hFloat N s0 u hmem
  constructor
  · nlinarith [hub.1, hub.2, hr]
  · nlinarith [hub.1, hub.2, hr]

theorem pulls_distribution (it0 : Iter N U σ) (n : ℕ) :
    (pulls ops sqrtA it0 n).distribution = it0.distribution := by
  induction n with
  | zero => rfl
  | succ n ih =>
    rw [pulls, next_distribution, ih]

theorem emitted_succ (it0 : Iter N U σ) (n : ℕ) :
    emitted ops sqrtA it0 (n + 1) =
      emitted ops sqrtA it0 n ++ (pullResult ops sqrtA it0 n).toList := by
  unfold emitted
  rw [List.range_succ, List.filterMap_append]
  cases h : pullResult ops sqrtA it0 n <;> simp [h]

theorem sampled_pulls (it0 : Iter N U σ) (h0 : it0.sampled = []) (n : ℕ) :
    (pulls ops sqrtA it0 n).sampled = (emitted ops sqrtA it0 n).reverse := by
  induction n with
  | zero =>
    rw [pulls, h0]
    rfl
  | succ n ih =>
    rw [pulls]
    cases hres : pullResult ops sqrtA it0 n with
    | none =>
      have hn := next_none ops sqrtA (pulls ops sqrtA it0 n) hres
      rw [hn.1, ih, emitted_succ, hres]
      simp
    | some p =>
      have hs := next_some ops sqrtA (pulls ops sqrtA it0 n) p hres
      rw [hs.1, ih, emitted_succ, hres]
      simp

theorem emitted_pairwise (it0 : Iter N U σ) (h0 : it0.sampled = []) (n : ℕ) :
    (emitted ops sqrtA it0 n).Pairwise
      (fun p q => it0.distribution.radius ^ 2 < sqDist p q) := by
  induction n with
  | zero => exact List.Pairwise.nil
  | succ n ih =>
    rw [emitted_succ]
    cases hres : pullResult ops sqrtA it0 n with
    | none => simpa using ih
    | some p =>
      rw [List.pairwise_append]
      refine ⟨ih, by simp, ?_⟩
      intro q hq p' hp'
      have hp'' : p' = p := by simpa using hp'
      rw [hp'']
      have hs := next_some ops sqrtA (pulls ops sqrtA it0 n) p hres
      have hsep := hs.2.2 q (by
        rw [sampled_pulls ops sqrtA it0 h0 n]
        simpa using hq)
      rw [pulls_distribution] at hsep
      rw [sqDist_comm]
      exact not_le.mp hsep

theorem emitted_validate (it0 : Iter N U σ) (n : ℕ) :
    ∀ p ∈ emitted ops sqrtA it0 n,
      it0.distribution.validate p it0.distribution.validate_user_data = true := by
  induction n with
  | zero => simp [emitted]
  | succ n ih =>
    rw [emitted_succ]
    intro p hp
    rcases List.mem_append.mp hp with h | h
    · exact ih p h
    · cases hres : pullResult ops sqrtA it0 n with
      | none =>
        rw [hres] at h
        simp at h
      | some q =>
        rw [hres] at h
        have hq : p = q := by simpa using h
        subst hq
        have hs := next_some ops sqrtA (pulls ops sqrtA it0 n) p hres
        have := hs.2.1
        rw [pulls_distribution] at this
        exact this

theorem pullResult_none_mono (it0 : Iter N U σ) (n m : ℕ) (hnm : n ≤ m)
    (h : pullResult ops sqrtA it0 n = none) :
    pullResult ops sqrtA it0 m = none := by
  induction m with
  | zero =>
    have : n = 0 := Nat.le_zero.mp hnm
    rw [← this]
    exact h
  | succ m ih =>
    rcases Nat.lt_or_ge n (m + 1) with hlt | hge
    · have hm : pullResult ops sqrtA it0 m = none := ih (Nat.lt_succ_iff.mp hlt)
      have hact : (pulls ops sqrtA it0 (m + 1)).active = [] := by
        rw [pulls]
        exact (next_none ops sqrtA (pulls ops sqrtA it0 m) hm).2.1
      unfold pullResult
      rw [next_empty ops sqrtA _ hact]
    · have : n = m + 1 := Nat.le_antisymm hnm hge
      rw [← this]
      exact h

theorem emitted_length_le (it0 : Iter N U σ) (h0 : it0.sampled = []) (n : ℕ)
    (B : ℕ) (hB : ∀ m, ((pulls ops sqrtA it0 m).sampled).length ≤ B) :
    (emitted ops sqrtA it0 n).length ≤ B := by
  have := hB n
  rw [sampled_pulls ops sqrtA it0 h0 n] at this
  simpa using this

theorem exists_pull_none (it0 : Iter N U σ) (B : ℕ)
    (hB : ∀ n, (emitted ops sqrtA it0 n).length ≤ B) :
    ∃ n, n ≤ B ∧ pullResult ops sqrtA it0 n = none := by
  by_contra h
  push_neg at h
  have hlen : ∀ k, k ≤ B + 1 → (emitted ops sqrtA it0 k).length = k := by
    intro k
    induction k with
    | zero => intro _; rfl
    | succ k ih =>
      intro hk
      rw [emitted_succ, List.length_append, ih (by omega)]
      cases hres : pullResult ops sqrtA it0 k with
      | none => exact absurd hres (h k (by omega))
      | some p => simp
  have hcon := hB (B + 1)
  rw [hlen (B + 1) (le_refl _)] at hcon
  omega

end Lemmas

/-- A set of points of `[0,1)^N` that are pairwise more than `r` apart is
finite: a list of such points, pairwise at squared distance above `r^2`, has
at most `(N * ceil(1/r))^N` elements, because mapping each point to its cell
in a grid of mesh `1/(N * ceil(1/r))` is injective on the list. -/
theorem packing_bound {N : ℕ} (r : ℚ) (hr : 0 < r) (l : List (Point N))
    (hbox : ∀ p ∈ l, ∀ i, 0 ≤ p i ∧ p i < 1)
    (hsep : l.Pairwise (fun p q => r ^ 2 < sqDist p q)) :
    l.length ≤ (N * Nat.ceil ((1 : ℚ) / r)) ^ N := by
  have hr2 : 0 < r ^ 2 := by positivity
  rcases Nat.eq_zero_or_pos N with hN | hN
  · subst hN
    cases l with
    | nil => simp
    | cons p t =>
      cases t with
      | nil => simp
      | cons q t' =>
        exfalso
        have hpq : r ^ 2 < sqDist p q :=
          (List.pairwise_cons.mp hsep).1 q (by simp)
        have hz : sqDist p q = 0 := by
          unfold sqDist
          simp
        rw [hz] at hpq
        linarith
  · set K := N * Nat.ceil ((1 : ℚ) / r) with hK
    have hc1 : 0 < Nat.ceil ((1 : ℚ) / r) := by
      rw [Nat.ceil_pos]
      positivity
    have hKpos : 0 < K := Nat.mul_pos hN hc1
    have hKQ : (0 : ℚ) < (K : ℚ) := by exact_mod_cast hKpos
    set ψ : Point N → (Fin N → Fin K) := fun p i =>
      ⟨min (Int.toNat ⌊p i * (K : ℚ)⌋) (K - 1), by omega⟩ with hψ
    have hfl : ∀ (p : Point N), (∀ i, 0 ≤ p i ∧ p i < 1) → ∀ i : Fin N,
        0 ≤ ⌊p i * (K : ℚ)⌋ ∧ ⌊p i * (K : ℚ)⌋ < (K : ℤ) := by
      intro p hp i
      constructor
      · apply Int.floor_nonneg.mpr
        have h1 := (hp i).1
        positivity
      · rw [Int.floor_lt]
        push_cast
        have h1 := (hp i).2
        nlinarith
    have hψval : ∀ (p : Point N), (∀ i, 0 ≤ p i ∧ p i < 1) → ∀ i,
        (ψ p i).val = Int.toNat ⌊p i * (K : ℚ)⌋ := by
      intro p hp i
      show min (Int.toNat ⌊p i * (K : ℚ)⌋) (K - 1) = Int.toNat ⌊p i * (K : ℚ)⌋
      have hf := hfl p hp i
      omega
    have hclose : ∀ (p q : Point N), (∀ i, 0 ≤ p i ∧ p i < 1) →
        (∀ i, 0 ≤ q i ∧ q i < 1) → ψ p = ψ q → sqDist p q < r ^ 2 := by
      intro p q hp hq hpq
      have hcoord : ∀ i : Fin N, (p i - q i) ^ 2 < 1 / (K : ℚ) ^ 2 := by
        intro i
        have h1 := congrFun hpq i
        have h2 : (ψ p i).val = (ψ q i).val := congrArg Fin.val h1
        rw [hψval p hp i, hψval q hq i] at h2
        have hfp := hfl p hp i
        have hfq := hfl q hq i
        have h3 : ⌊p i * (K : ℚ)⌋ = ⌊q i * (K : ℚ)⌋ := by omega
        have hlow1 := Int.floor_le (p i * (K : ℚ))
        have hup1 := Int.lt_floor_add_one (p i * (K : ℚ))
        have hlow2 := Int.floor_le (q i * (K : ℚ))
        have hup2 := Int.lt_floor_add_one (q i * (K : ℚ))
        rw [h3] at hlow1 hup1
        have hd1 : (p i - q i) * (K : ℚ) < 1 := by nlinarith
        have hd2 : -1 < (p i - q i) * (K : ℚ) := by nlinarith
        have hsq : (p i - q i) ^ 2 * (K : ℚ) ^ 2 < 1 := by nlinarith
        rw [lt_div_iff (by positivity)]
        exact hsq
      have huniv : (Finset.univ : Finset (Fin N)).Nonempty :=
        ⟨⟨0, hN⟩, Finset.mem_univ _⟩
      have hsum : sqDist p q < ∑ _i : Fin N, 1 / (K : ℚ) ^ 2 := by
        unfold sqDist
        exact Finset.sum_lt_sum_of_nonempty huniv (fun i _ => hcoord i)
      have hNK : (∑ _i : Fin N, 1 / (K : ℚ) ^ 2) = (N : ℚ) / (K : ℚ) ^ 2 := by
        rw [Finset.sum_const, Finset.card_univ, Fintype.card_fin, nsmul_eq_mul]
        ring
      rw [hNK] at hsum
      have hbound : (N : ℚ) / (K : ℚ) ^ 2 ≤ r ^ 2 := by
        rw [div_le_iff (by positivity)]
        have hc := Nat.le_ceil ((1 : ℚ) / r)
        have hKr : (N : ℚ) ≤ (K : ℚ) * r := by
          have hKc : (K : ℚ) = (N : ℚ) * (Nat.ceil ((1 : ℚ) / r) : ℚ) := by
            rw [hK]
            push_cast
            ring
          rw [hKc]
          have hNQ : (0 : ℚ) ≤ (N : ℚ) := by positivity
          have hstep1 : (N : ℚ) * ((1 : ℚ) / r) * r
              ≤ (N : ℚ) * (Nat.ceil ((1 : ℚ) / r) : ℚ) * r :=
            mul_le_mul_of_nonneg_right (mul_le_mul_of_nonneg_left hc hNQ)
              (le_of_lt hr)
          have hstep2 : (N : ℚ) * ((1 : ℚ) / r) * r = N := by
            field_simp
          linarith
        have hN1 : (1 : ℚ) ≤ (N : ℚ) := by exact_mod_cast hN
        nlinarith
      linarith
    have hnodup : l.Nodup := by
      apply List.Pairwise.imp ?_ hsep
      intro p q h heq
      rw [heq, sqDist_self] at h
      linarith
    have hsymm : Symmetric (fun (p q : Point N) => r ^ 2 < sqDist p q) := by
      intro a b h
      rw [sqDist_comm]
      exact h
    have hmapnodup : (l.map ψ).Nodup := by
      apply hnodup.map_on
      intro x hx y hy hxy
      by_contra hne
      have h1 := hsep.forall hsymm hx hy hne
      have h2 := hclose x y (hbox x hx) (hbox y hy) hxy
      linarith
    have hcard := hmapnodup.length_le_card
    rw [List.length_map, Fintype.card_fun, Fintype.card_fin, Fintype.card_fin]
      at hcard
    exact hcard

/-- Clamp a scripted draw into the `[0, 1)` contract range of
`gen::<Float>()`. -/
def floatClamp (x : ℚ) : ℚ := if 0 ≤ x ∧ x < 1 then x else 0

/-- Replace a zero scripted draw by 1, so scripted standard normal draws are
never exactly zero. -/
def normalClamp (x : ℚ) : ℚ := if x = 0 then 1 else x

/-- A deterministic scripted RNG: the state is a pair of a list of pending
float draws (consumed by both `genFloat` and `sampleNormal`, in order) and a
list of pending index draws (consumed by `genRange`, reduced modulo the range
size).  Clamping keeps every draw inside the rand contract ranges regardless
of the script. -/
def scriptOps (init : List ℚ × List ℕ) : RngOps (List ℚ × List ℕ) where
  genFloat s := (floatClamp (s.1.headD 0), (s.1.tail, s.2))
  genRange s n := (s.2.headD 0 % n, (s.1, s.2.tail))
  sampleNormal s := (normalClamp (s.1.headD 0), (s.1.tail, s.2))
  seedFrom _ := init

/-- The square-root model used by the concrete runs below: it returns the
exact square root on the one value those traces apply it to, is positive on
positive inputs, and never exceeds the true square root. -/
def modelSqrt (x : ℚ) : ℚ := if x = 25 then 5 else min x 1

/-- The scripted RNG used for the concrete 2-dimensional run: the float/normal
draws make the initial point `(1/100, 1/100)`, the first emitted point
`(1/10, 13/100)`, and the second emitted point exactly the initial point. -/
def cexOps : RngOps (List ℚ × List ℕ) :=
  scriptOps ([2/5, 2/5, 1/2, 3, 4, 1/2, -3, -4], [0, 1])

/-- The default 2-dimensional configuration with seed 0 (radius `0.1`,
box domain, 30 samples). -/
def cexCfg : Poisson 2 Unit := (Poisson.defaultCfg 2 Unit).with_seed 0

/-- An arbitrary entropy state (unused: `cexCfg` has a seed). -/
def cexEntropy : List ℚ × List ℕ := ([], [])

theorem cex_new : Iter.new cexOps cexCfg cexEntropy =
    ⟨cexCfg, ([1/2, 3, 4, 1/2, -3, -4], [0, 1]), [], [mkPoint 2 [1/100, 1/100]]⟩ := by
  unfold Iter.new cexEntropy
  simp only [cexCfg, cexOps, scriptOps, Poisson.with_seed, Poisson.defaultCfg, drawList,
    floatClamp, List.headD, List.tail]
  norm_num
  funext i
  fin_cases i <;> norm_num [mkPoint]

theorem cex_grp1 : generate_random_point cexOps modelSqrt cexCfg.radius
    (([1/2, 3, 4, 1/2, -3, -4], [1]) : List ℚ × List ℕ) (mkPoint 2 [1/100, 1/100]) =
    (mkPoint 2 [1/10, 13/100], (([1/2, -3, -4], [1]) : List ℚ × List ℕ)) := by
  unfold generate_random_point
  simp only [cexOps, scriptOps, drawList, List.headD, List.tail, floatClamp, normalClamp]
  norm_num [modelSqrt, cexCfg, Poisson.with_seed, Poisson.defaultCfg]
  funext i
  fin_cases i <;> norm_num [mkPoint]

theorem cex_sp1 : cexCfg.validate (mkPoint 2 [1/10, 13/100]) cexCfg.validate_user_data
    = true := by
  simp only [cexCfg, Poisson.with_seed, Poisson.defaultCfg, decide_eq_true_eq]
  intro i
  fin_cases i <;> norm_num [mkPoint]

theorem cex_pull1 : Iter.next cexOps modelSqrt
    (⟨cexCfg, ([1/2, 3, 4, 1/2, -3, -4], [0, 1]), [],
      [mkPoint 2 [1/100, 1/100]]⟩ : Iter 2 Unit (List ℚ × List ℕ)) =
    (some (mkPoint 2 [1/10, 13/100]),
      ⟨cexCfg, ([1/2, -3, -4], [1]), [mkPoint 2 [1/10, 13/100]],
        [mkPoint 2 [1/100, 1/100], mkPoint 2 [1/10, 13/100]]⟩) := by
  rw [Iter.next]
  rw [show (⟨cexCfg, ([1/2, 3, 4, 1/2, -3, -4], [0, 1]), [],
      [mkPoint 2 [1/100, 1/100]]⟩ : Iter 2 Unit (List ℚ × List ℕ)).active.length
      = 0 + 1 from rfl]
  refine nextLoop_step_some cexOps modelSqrt _ _ 0 0 (([1/2, 3, 4, 1/2, -3, -4], [1]))
    _ rfl rfl ?_
  rw [show (⟨cexCfg, ([1/2, 3, 4, 1/2, -3, -4], [0, 1]), [],
      [mkPoint 2 [1/100, 1/100]]⟩ : Iter 2 Unit (List ℚ × List ℕ)).distribution.num_samples
      = 29 + 1 from rfl]
  exact tryCandidates_accept cexOps modelSqrt _ 0 29 _ _ cex_grp1 cex_sp1 rfl

theorem cex_grp2 : generate_random_point cexOps modelSqrt cexCfg.radius
    (([1/2, -3, -4], []) : List ℚ × List ℕ) (mkPoint 2 [1/10, 13/100]) =
    (mkPoint 2 [1/100, 1/100], (([], []) : List ℚ × List ℕ)) := by
  unfold generate_random_point
  simp only [cexOps, scriptOps, drawList, List.headD, List.tail, floatClamp, normalClamp]
  norm_num [modelSqrt, cexCfg, Poisson.with_seed, Poisson.defaultCfg]
  funext i
  fin_cases i <;> norm_num [mkPoint]

theorem cex_sp2 : cexCfg.validate (mkPoint 2 [1/100, 1/100]) cexCfg.validate_user_data
    = true := by
  simp only [cexCfg, Poisson.with_seed, Poisson.defaultCfg, decide_eq_true_eq]
  intro i
  fin_cases i <;> norm_num [mkPoint]

theorem cex_nb2 : (⟨cexCfg, (([], []) : List ℚ × List ℕ), [mkPoint 2 [1/10, 13/100]],
    [mkPoint 2 [1/100, 1/100], mkPoint 2 [1/10, 13/100]]⟩ :
      Iter 2 Unit (List ℚ × List ℕ)).in_neighborhood (mkPoint 2 [1/100, 1/100])
    = false := by
  simp only [Iter.in_neighborhood, List.any_cons, List.any_nil, Bool.or_false,
    decide_eq_false_iff_not, not_le]
  rw [show (sqDist (mkPoint 2 [1/100, 1/100]) (mkPoint 2 [1/10, 13/100])) = 9/400 by
    norm_num [sqDist, Fin.sum_univ_two, mkPoint]]
  norm_num [cexCfg, Poisson.with_seed, Poisson.defaultCfg]

theorem cex_pull2 : Iter.next cexOps modelSqrt
    (⟨cexCfg, ([1/2, -3, -4], [1]), [mkPoint 2 [1/10, 13/100]],
      [mkPoint 2 [1/100, 1/100], mkPoint 2 [1/10, 13/100]]⟩ :
        Iter 2 Unit (List ℚ × List ℕ)) =
    (some (mkPoint 2 [1/100, 1/100]),
      ⟨cexCfg, ([], []), [mkPoint 2 [1/100, 1/100], mkPoint 2 [1/10, 13/100]],
        [mkPoint 2 [1/100, 1/100], mkPoint 2 [1/10, 13/100],
          mkPoint 2 [1/100, 1/100]]⟩) := by
  rw [Iter.next]
  rw [show (⟨cexCfg, ([1/2, -3, -4], [1]), [mkPoint 2 [1/10, 13/100]],
      [mkPoint 2 [1/100, 1/100], mkPoint 2 [1/10, 13/100]]⟩ :
        Iter 2 Unit (List ℚ × List ℕ)).active.length = 1 + 1 from rfl]
  refine nextLoop_step_some cexOps modelSqrt _ _ 1 1 (([1/2, -3, -4], []))
    _ rfl rfl ?_
  rw [show (⟨cexCfg, ([1/2, -3, -4], [1]), [mkPoint 2 [1/10, 13/100]],
      [mkPoint 2 [1/100, 1/100], mkPoint 2 [1/10, 13/100]]⟩ :
        Iter 2 Unit (List ℚ × List ℕ)).distribution.num_samples = 29 + 1 from rfl]
  exact tryCandidates_accept cexOps modelSqrt _ 1 29 _ _ cex_grp2 cex_sp2 cex_nb2

theorem cex_firstPoint : firstPoint cexOps cexCfg cexEntropy = mkPoint 2 [1/100, 1/100] := by
  rw [firstPoint, cex_new]
  rfl

theorem cex_pullResult0 : pullResult cexOps modelSqrt (Iter.new cexOps cexCfg cexEntropy) 0
    = some (mkPoint 2 [1/10, 13/100]) := by
  unfold pullResult
  rw [show pulls cexOps modelSqrt (Iter.new cexOps cexCfg cexEntropy) 0
    = Iter.new cexOps cexCfg cexEntropy from rfl, cex_new, cex_pull1]

theorem cex_state1 : pulls cexOps modelSqrt (Iter.new cexOps cexCfg cexEntropy) 1 =
    ⟨cexCfg, ([1/2, -3, -4], [1]), [mkPoint 2 [1/10, 13/100]],
      [mkPoint 2 [1/100, 1/100], mkPoint 2 [1/10, 13/100]]⟩ := by
  show (Iter.next cexOps modelSqrt
    (pulls cexOps modelSqrt (Iter.new cexOps cexCfg cexEntropy) 0)).2 = _
  rw [show pulls cexOps modelSqrt (Iter.new cexOps cexCfg cexEntropy) 0
    = Iter.new cexOps cexCfg cexEntropy from rfl, cex_new, cex_pull1]

theorem cex_pullResult1 : pullResult cexOps modelSqrt (Iter.new cexOps cexCfg cexEntropy) 1
    = some (mkPoint 2 [1/100, 1/100]) := by
  unfold pullResult
  rw [cex_state1, cex_pull2]

theorem cex_sampled2 : (pulls cexOps modelSqrt (Iter.new cexOps cexCfg cexEntropy) 2).sampled
    = [mkPoint 2 [1/100, 1/100], mkPoint 2 [1/10, 13/100]] := by
  show (Iter.next cexOps modelSqrt
    (pulls cexOps modelSqrt (Iter.new cexOps cexCfg cexEntropy) 1)).2.sampled = _
  rw [cex_state1, cex_pull2]

theorem cex_emit1 : emitted cexOps modelSqrt (Iter.new cexOps cexCfg cexEntropy) 1
    = [mkPoint 2 [1/10, 13/100]] := by
  show emitted cexOps modelSqrt (Iter.new cexOps cexCfg cexEntropy) (0 + 1) = _
  rw [emitted_succ, cex_pullResult0]
  rfl

theorem cex_emitN2 : emitN cexOps modelSqrt cexCfg cexEntropy 2
    = [mkPoint 2 [1/10, 13/100], mkPoint 2 [1/100, 1/100]] := by
  show emitted cexOps modelSqrt (Iter.new cexOps cexCfg cexEntropy) (1 + 1) = _
  rw [emitted_succ, cex_emit1, cex_pullResult1]
  rfl


/-- A scripted RNG with an empty script: every float draw is 0, every normal
draw is 1 by clamping, every index draw is 0. -/
def nullOps : RngOps (List ℚ × List ℕ) := scriptOps ([], [])

/-- The default 2-dimensional configuration with seed 7 and a validation
predicate that rejects every point. -/
def nullCfg : Poisson 2 Unit :=
  ((Poisson.defaultCfg 2 Unit).with_seed 7).with_validate (fun _ _ => false) ()

/-- The default 2-dimensional configuration with seed 7 and a validation
predicate that accepts every point. -/
def allCfg : Poisson 2 Unit :=
  ((Poisson.defaultCfg 2 Unit).with_seed 7).with_validate (fun _ _ => true) ()

/-- The configuration of tests/custom_rng.rs:
`Poisson::<2, (), SplitMix64>::new().with_radius(5.0).with_seed(seed)`. -/
def radius5Cfg (seed : ℕ) : Poisson 2 Unit :=
  ((Poisson.defaultCfg 2 Unit).with_radius 5).with_seed seed

theorem radius5_candidate_rejected {σ : Type} (ops : RngOps σ) (sqrtA : ℚ → ℚ)
    (seed : ℕ) (s : σ) (around : Point 2)
    (ha : ∀ j, -(5/2) < around j ∧ around j ≤ 5/2)
    (hFloat : ∀ t, 0 ≤ (ops.genFloat t).1 ∧ (ops.genFloat t).1 < 1)
    (hNorm : ∀ t, (ops.sampleNormal t).1 ≠ 0)
    (hS : ∀ x : ℚ, 0 < x → 0 < sqrtA x ∧ sqrtA x ^ 2 ≤ 50/49 * x) :
    (radius5Cfg seed).validate
      ((generate_random_point ops sqrtA (radius5Cfg seed).radius s around).1)
      (radius5Cfg seed).validate_user_data = false := by
  set c := (generate_random_point ops sqrtA (radius5Cfg seed).radius s around).1
    with hc
  by_contra hcon
  have hval : (radius5Cfg seed).validate c (radius5Cfg seed).validate_user_data
      = true := by
    revert hcon
    cases (radius5Cfg seed).validate c (radius5Cfg seed).validate_user_data <;> simp
  have hbox : ∀ i : Fin 2, 0 ≤ c i ∧ c i < 1 := by
    have hval' : decide (∀ i : Fin 2, 0 ≤ c i ∧ c i < 1) = true := hval
    exact of_decide_eq_true hval'
  have hlow : (5 : ℚ) ^ 2 / (50/49) ≤ sqDist c around := by
    have := grp_sqDist_ge ops sqrtA 5 s around (50/49)
      (by norm_num) (by norm_num) (by norm_num)
      (fun t => (hFloat t).1) hNorm hS
    exact this
  have hlow' : (49/2 : ℚ) ≤ sqDist c around := by
    have h495 : ((5 : ℚ) ^ 2 / (50/49)) = 49/2 := by norm_num
    rw [h495] at hlow
    exact hlow
  have hhigh : sqDist c around < 49/2 := by
    unfold sqDist
    rw [Fin.sum_univ_two]
    have h0 := hbox 0
    have h1 := hbox 1
    have ha0 := ha 0
    have ha1 := ha 1
    nlinarith [h0.1, h0.2, h1.1, h1.2, ha0.1, ha0.2, ha1.1, ha1.2]
  linarith

theorem radius5_tryCandidates_none {σ : Type} (ops : RngOps σ) (sqrtA : ℚ → ℚ)
    (seed i : ℕ)
    (hFloat : ∀ t, 0 ≤ (ops.genFloat t).1 ∧ (ops.genFloat t).1 < 1)
    (hNorm : ∀ t, (ops.sampleNormal t).1 ≠ 0)
    (hS : ∀ x : ℚ, 0 < x → 0 < sqrtA x ∧ sqrtA x ^ 2 ≤ 50/49 * x) :
    ∀ (fuel : ℕ) (it : Iter 2 Unit σ), it.distribution = radius5Cfg seed →
      (∀ q ∈ it.active, ∀ j, -(5/2) < q j ∧ q j ≤ 5/2) →
      (tryCandidates ops sqrtA it i fuel).1 = none := by
  intro fuel
  induction fuel with
  | zero => intro it _ _; rfl
  | succ fuel ih =>
    intro it hd hb
    have haround : ∀ j, -(5/2) < (it.active.getD i (zeroPoint 2)) j ∧
        (it.active.getD i (zeroPoint 2)) j ≤ 5/2 := by
      by_cases hi : i < it.active.length
      · rw [List.getD_eq_getElem _ _ hi]
        exact hb _ (List.getElem_mem hi)
      · rw [List.getD_eq_default _ _ (le_of_not_lt hi)]
        intro j
        constructor
        · norm_num [zeroPoint]
        · norm_num [zeroPoint]
    have hrej := radius5_candidate_rejected ops sqrtA seed it.rng _ haround
      hFloat hNorm hS
    rw [tryCandidates]
    split
    · next hcond =>
      exfalso
      have hsp := (Bool.and_eq_true_iff.mp hcond).1
      have h2 : it.distribution.validate
          (generate_random_point ops sqrtA it.distribution.radius it.rng
            (it.active.getD i (zeroPoint 2))).1
          it.distribution.validate_user_data = true := hsp
      rw [hd] at h2
      rw [hrej] at h2
      exact Bool.false_ne_true h2
    · next hcond =>
      exact ih _ hd hb

theorem radius5_nextLoop_none {σ : Type} (ops : RngOps σ) (sqrtA : ℚ → ℚ)
    (seed : ℕ)
    (hFloat : ∀ t, 0 ≤ (ops.genFloat t).1 ∧ (ops.genFloat t).1 < 1)
    (hNorm : ∀ t, (ops.sampleNormal t).1 ≠ 0)
    (hS : ∀ x : ℚ, 0 < x → 0 < sqrtA x ∧ sqrtA x ^ 2 ≤ 50/49 * x) :
    ∀ (fuel : ℕ) (it : Iter 2 Unit σ), it.distribution = radius5Cfg seed →
      (∀ q ∈ it.active, ∀ j, -(5/2) < q j ∧ q j ≤ 5/2) →
      (nextLoop ops sqrtA it fuel).1 = none ∧
      (nextLoop ops sqrtA it fuel).2.distribution = radius5Cfg seed ∧
      (∀ q ∈ (nextLoop ops sqrtA it fuel).2.active, ∀ j,
        -(5/2) < q j ∧ q j ≤ 5/2) := by
  intro fuel
  induction fuel with
  | zero => intro it hd hb; exact ⟨rfl, hd, hb⟩
  | succ fuel ih =>
    intro it hd hb
    by_cases hemp : it.active.isEmpty
    · rw [nextLoop, if_pos hemp]
      exact ⟨rfl, hd, hb⟩
    · have hne : it.active.isEmpty = false := by
        revert hemp
        cases it.active.isEmpty <;> simp
      set i0 := (ops.genRange it.rng it.active.length).1 with hi0
      set rng2 := (ops.genRange it.rng it.active.length).2 with hrng2
      set it1 : Iter 2 Unit σ :=
        ⟨it.distribution, rng2, it.sampled, it.active⟩ with hit1
      set res := tryCandidates ops sqrtA it1 i0 it.distribution.num_samples
        with hresdef
      have h1 : res.1 = none := by
        rw [hresdef]
        exact radius5_tryCandidates_none ops sqrtA seed i0 hFloat hNorm hS
          it.distribution.num_samples it1 hd hb
      have hres_eq : res = (none, res.2) := by
        rw [← h1]
      have hstep := nextLoop_step_none ops sqrtA it res.2 fuel i0 rng2 hne rfl
        hres_eq
      rw [hstep]
      have hchar := tryCandidates_characterize ops sqrtA i0
        it.distribution.num_samples it1
      rw [← hresdef] at hchar
      have hact : res.2.active = it.active := by
        rcases hchar.1 with ⟨_, _, h⟩ | ⟨p, hp, _⟩
        · exact h
        · rw [h1] at hp
          exact absurd hp (by simp)
      have hd2 : ({ res.2 with active := swapRemove res.2.active i0 } :
          Iter 2 Unit σ).distribution = radius5Cfg seed := by
        show res.2.distribution = radius5Cfg seed
        rw [hchar.2]
        exact hd
      have hb2 : ∀ q ∈ ({ res.2 with active := swapRemove res.2.active i0 } :
          Iter 2 Unit σ).active, ∀ j, -(5/2) < q j ∧ q j ≤ 5/2 := by
        intro q hq
        have hq' : q ∈ swapRemove res.2.active i0 := hq
        rw [hact] at hq'
        exact hb q (swapRemove_subset _ _ hq')
      exact ih _ hd2 hb2

/-- C2: the custom_rng test configuration cannot emit any point.  For the
2-dimensional default-domain configuration with radius 5 and any explicit
seed, under the rand contract (`gen` in `[0,1)`), nonzero normal draws and a
square root that is exact to within a factor `50/49` on squares (amply true
of `f64`), every pull returns `none`, so `generate()` collects the empty
vector.  The seed point has coordinates in `(-5/2, 5/2]`, every point of the
domain `[0,1)^2` is at distance less than `sqrt(49/2) = 4.95` from it, yet
every candidate is generated at distance at least `5` from an active point,
so every candidate fails the domain test and the active list drains without
ever emitting.  This contradicts the repository test `custom_rng`, which
asserts the generated vector is non-empty. -/
theorem C2_radius5_generate_empty {σ : Type} (ops : RngOps σ) (sqrtA : ℚ → ℚ)
    (entropy : σ) (seed : ℕ)
    (hFloat : ∀ t, 0 ≤ (ops.genFloat t).1 ∧ (ops.genFloat t).1 < 1)
    (hNorm : ∀ t, (ops.sampleNormal t).1 ≠ 0)
    (hS : ∀ x : ℚ, 0 < x → 0 < sqrtA x ∧ sqrtA x ^ 2 ≤ 50/49 * x) :
    ∀ n, emitN ops sqrtA (radius5Cfg seed) entropy n = [] := by
  have hInv : ∀ n,
      (pulls ops sqrtA (Iter.new ops (radius5Cfg seed) entropy) n).distribution
        = radius5Cfg seed ∧
      (∀ q ∈ (pulls ops sqrtA (Iter.new ops (radius5Cfg seed) entropy) n).active,
        ∀ j, -(5/2) < q j ∧ q j ≤ 5/2) := by
    intro n
    induction n with
    | zero =>
      refine ⟨rfl, ?_⟩
      intro q hq
      have hq' : q = firstPoint ops (radius5Cfg seed) entropy := by
        have : (Iter.new ops (radius5Cfg seed) entropy).active
            = [firstPoint ops (radius5Cfg seed) entropy] := rfl
        rw [show (pulls ops sqrtA (Iter.new ops (radius5Cfg seed) entropy) 0)
          = Iter.new ops (radius5Cfg seed) entropy from rfl, this] at hq
        simpa using hq
      rw [hq']
      intro j
      have := firstPoint_bounds ops (radius5Cfg seed) entropy
        (by norm_num [radius5Cfg, Poisson.with_radius, Poisson.with_seed,
          Poisson.defaultCfg]) hFloat j
      have hrad : (radius5Cfg seed).radius = 5 := rfl
      rw [hrad] at this
      constructor
      · have h' := this.1
        norm_num at h' ⊢
        linarith
      · have h' := this.2
        norm_num at h' ⊢
        linarith
    | succ n ih =>
      have hstep := radius5_nextLoop_none ops sqrtA seed hFloat hNorm hS
        (pulls ops sqrtA (Iter.new ops (radius5Cfg seed) entropy) n).active.length
        (pulls ops sqrtA (Iter.new ops (radius5Cfg seed) entropy) n) ih.1 ih.2
      exact ⟨hstep.2.1, hstep.2.2⟩
  have hnone : ∀ n,
      pullResult ops sqrtA (Iter.new ops (radius5Cfg seed) entropy) n = none := by
    intro n
    have hstep := radius5_nextLoop_none ops sqrtA seed hFloat hNorm hS
      (pulls ops sqrtA (Iter.new ops (radius5Cfg seed) entropy) n).active.length
      (pulls ops sqrtA (Iter.new ops (radius5Cfg seed) entropy) n)
      (hInv n).1 (hInv n).2
    exact hstep.1
  intro n
  show emitted ops sqrtA (Iter.new ops (radius5Cfg seed) entropy) n = []
  unfold emitted
  rw [List.filterMap_eq_nil]
  intro a _
  exact hnone a

/-- C2 witness: the scripted RNG with an empty script satisfies all the
contract hypotheses, and indeed emits nothing in five pulls at radius 5 with
seed 44244. -/
theorem C2_radius5_generate_empty_witness :
    emitN nullOps modelSqrt (radius5Cfg 44244) cexEntropy 5 = [] := by
  apply C2_radius5_generate_empty nullOps modelSqrt cexEntropy 44244
  · intro t
    show 0 ≤ floatClamp (t.1.headD 0) ∧ floatClamp (t.1.headD 0) < 1
    unfold floatClamp
    split
    · next h => exact h
    · exact ⟨le_refl 0, by norm_num⟩
  · intro t
    show normalClamp (t.1.headD 0) ≠ 0
    unfold normalClamp
    split
    · norm_num
    · next h => exact h
  · intro x hx
    unfold modelSqrt
    split
    · next h =>
      rw [h]
      norm_num
    · next h =>
      rcases le_total x 1 with h1 | h1
      · rw [min_eq_left h1]
        refine ⟨hx, ?_⟩
        nlinarith
      · rw [min_eq_right h1]
        refine ⟨by norm_num, ?_⟩
        nlinarith

/-- C1: Minimum separation.  For every configuration (any dimension, any
validation predicate and user data, any radius), every RNG behaviour, every
square-root model and every entropy value, the points emitted over the
iterator lifetime are pairwise at Euclidean distance at least the configured
radius: for any two points at distinct positions of the emitted sequence, the
radius is at most the square root of their squared Euclidean distance.  This
holds because `Iter::next` only accepts a candidate whose squared distance to
every previously stored sample exceeds `radius^2`, and the stored samples are
exactly the previously emitted points. -/
theorem C1_minimum_separation {N : ℕ} {U σ : Type} (ops : RngOps σ)
    (sqrtA : ℚ → ℚ) (cfg : Poisson N U) (entropy : σ) (n : ℕ) :
    (emitN ops sqrtA cfg entropy n).Pairwise
      (fun p q => (cfg.radius : ℝ) ≤ Real.sqrt ((sqDist p q : ℚ) : ℝ)) := by
  have hd : (Iter.new ops cfg entropy).distribution = cfg := rfl
  have hpair := emitted_pairwise ops sqrtA (Iter.new ops cfg entropy) rfl n
  rw [hd] at hpair
  refine List.Pairwise.imp ?_ hpair
  intro p q h
  have h2 : ((cfg.radius : ℝ)) ^ 2 ≤ ((sqDist p q : ℚ) : ℝ) := by
    have hle : cfg.radius ^ 2 ≤ sqDist p q := le_of_lt h
    exact_mod_cast hle
  exact Real.le_sqrt_of_sq_le h2

/-- C3, counterexample: the claim says the synthetic seed point is never
inserted into the spatial index and never returned by `next()`.  On the
concrete scripted run `cexOps` (all draws inside the rand contract ranges,
square root evaluated exactly), the second pull returns a point equal to the
synthetic seed point, and that point is inserted into the index: nothing in
the code compares candidates against the seed point, because the seed point
is deliberately absent from the index. -/
theorem C3_seed_point_emitted_cex :
    pullResult cexOps modelSqrt (Iter.new cexOps cexCfg cexEntropy) 1 =
      some (firstPoint cexOps cexCfg cexEntropy) ∧
    firstPoint cexOps cexCfg cexEntropy ∈
      (pulls cexOps modelSqrt (Iter.new cexOps cexCfg cexEntropy) 2).sampled := by
  rw [cex_firstPoint, cex_pullResult1, cex_sampled2]
  exact ⟨rfl, List.mem_cons_self _ _⟩

/-- C3 (amended): at construction the active list holds exactly the synthetic
seed point and the spatial index is empty; after any number of pulls the
spatial index contains exactly the points emitted so far (so construction
itself never inserts the seed point).  The original "never returned, never
indexed" part is dropped: a later candidate can coincide with the seed point
coordinates and then it is emitted and indexed (see the counterexample). -/
theorem C3_construction_and_index {N : ℕ} {U σ : Type} (ops : RngOps σ)
    (sqrtA : ℚ → ℚ) (cfg : Poisson N U) (entropy : σ) :
    (Iter.new ops cfg entropy).active = [firstPoint ops cfg entropy] ∧
    (Iter.new ops cfg entropy).sampled = [] ∧
    ∀ n, (pulls ops sqrtA (Iter.new ops cfg entropy) n).sampled =
      (emitN ops sqrtA cfg entropy n).reverse := by
  refine ⟨rfl, rfl, ?_⟩
  intro n
  exact sampled_pulls ops sqrtA (Iter.new ops cfg entropy) rfl n

/-- C4, counterexample: the claim says no emitted point lies within distance
`radius` of the synthetic seed point.  On the concrete scripted run `cexOps`
an emitted point (the second one) has squared distance `0 < radius^2` to the
seed point. -/
theorem C4_void_around_seed_cex :
    ((emitN cexOps modelSqrt cexCfg cexEntropy 2).any fun p =>
      decide (sqDist p (firstPoint cexOps cexCfg cexEntropy) < cexCfg.radius ^ 2))
      = true := by
  rw [cex_emitN2, cex_firstPoint]
  simp only [List.any_cons, List.any_nil, Bool.or_eq_true, decide_eq_true_eq]
  right
  left
  rw [sqDist_self]
  norm_num [cexCfg, Poisson.with_seed, Poisson.defaultCfg]

/-- C4 (amended): the synthetic seed point lies within `radius/2` of the
origin in every coordinate (for the default domain `[0,1)^N` this is next to
the corner of the domain at the origin, not its centre), and the first
emitted point, when one exists, lies at squared distance at least `radius^2`
from the seed point.  The hypotheses restate the rand contract (`gen` in
`[0,1)`, `gen_range(0..n)` below `n`), the fact that a standard normal draw
is never exactly zero, and that the square-root model under-approximates the
square (true of the correctly rounded `f64` square root up to rounding).
Later emitted points can enter the seed point ball (see the counterexample),
so the original "deliberate void around the centre" only covers the first
emitted point and is centred near the origin. -/
theorem C4_seed_location_first_emit {N : ℕ} {U σ : Type} (ops : RngOps σ)
    (sqrtA : ℚ → ℚ) (cfg : Poisson N U) (entropy : σ)
    (hN : 0 < N) (hr : 0 < cfg.radius)
    (hFloat : ∀ s, 0 ≤ (ops.genFloat s).1 ∧ (ops.genFloat s).1 < 1)
    (hNorm : ∀ s, (ops.sampleNormal s).1 ≠ 0)
    (hS : ∀ x : ℚ, 0 < x → 0 < sqrtA x ∧ sqrtA x ^ 2 ≤ x)
    (hRange : ∀ s n, 0 < n → (ops.genRange s n).1 < n) :
    (∀ i, -(cfg.radius / 2) < firstPoint ops cfg entropy i ∧
      firstPoint ops cfg entropy i ≤ cfg.radius / 2) ∧
    ∀ p, pullResult ops sqrtA (Iter.new ops cfg entropy) 0 = some p →
      cfg.radius ^ 2 ≤ sqDist p (firstPoint ops cfg entropy) := by
  constructor
  · exact firstPoint_bounds ops cfg entropy hr hFloat
  · intro p hp
    have hact : (Iter.new ops cfg entropy).active
        = [firstPoint ops cfg entropy] := rfl
    have hlen : (Iter.new ops cfg entropy).active.length = 0 + 1 := by
      rw [hact]
      rfl
    have hIt : Iter.next ops sqrtA (Iter.new ops cfg entropy)
        = nextLoop ops sqrtA (Iter.new ops cfg entropy) (0 + 1) := by
      rw [Iter.next, hlen]
    have hp2 : (nextLoop ops sqrtA (Iter.new ops cfg entropy) (0 + 1)).1
        = some p := by
      rw [← hIt]
      exact hp
    obtain ⟨s, hs⟩ := nextLoop_singleton_some ops sqrtA (Iter.new ops cfg entropy)
      (firstPoint ops cfg entropy) hact 0 p hRange hp2
    have hs' : p = (generate_random_point ops sqrtA cfg.radius s
      (firstPoint ops cfg entropy)).1 := hs
    rw [hs']
    have hκ := grp_sqDist_ge ops sqrtA cfg.radius s (firstPoint ops cfg entropy)
      1 hN hr one_pos (fun t => (hFloat t).1) hNorm
      (by
        intro x hx
        rw [one_mul]
        exact hS x hx)
    rw [div_one] at hκ
    exact hκ

/-- C4 witness: on the concrete scripted run all the contract hypotheses
hold, so the seed point coordinate bounds and the first-emission distance
bound apply to it. -/
theorem C4_seed_location_first_emit_witness :
    (∀ i, -(cexCfg.radius / 2) < firstPoint cexOps cexCfg cexEntropy i ∧
      firstPoint cexOps cexCfg cexEntropy i ≤ cexCfg.radius / 2) ∧
    ∀ p, pullResult cexOps modelSqrt (Iter.new cexOps cexCfg cexEntropy) 0 = some p →
      cexCfg.radius ^ 2 ≤ sqDist p (firstPoint cexOps cexCfg cexEntropy) := by
  apply C4_seed_location_first_emit cexOps modelSqrt cexCfg cexEntropy
  · norm_num
  · norm_num [cexCfg, Poisson.with_seed, Poisson.defaultCfg]
  · intro s
    show 0 ≤ floatClamp (s.1.headD 0) ∧ floatClamp (s.1.headD 0) < 1
    unfold floatClamp
    split
    · next h => exact h
    · exact ⟨le_refl 0, by norm_num⟩
  · intro s
    show normalClamp (s.1.headD 0) ≠ 0
    unfold normalClamp
    split
    · norm_num
    · next h => exact h
  · intro x hx
    unfold modelSqrt
    split
    · next h =>
      rw [h]
      norm_num
    · next h =>
      rcases le_total x 1 with h1 | h1
      · rw [min_eq_left h1]
        constructor
        · exact hx
        · nlinarith
      · rw [min_eq_right h1]
        constructor
        · norm_num
        · nlinarith
  · intro s n hn
    show s.2.headD 0 % n < n
    exact Nat.mod_lt _ hn

/-- C5: Determinism.  Two engines built over the same RNG type (same
`RngOps`), with the same explicit seed, radius, `num_samples`, validation
predicate and user data, emit identical point sequences, element for element
and in the same order — whatever the entropy sources are (they are unused
when a seed is set). -/
theorem C5_determinism {N : ℕ} {U σ : Type} (ops : RngOps σ) (sqrtA : ℚ → ℚ)
    (a b : Poisson N U) (k : ℕ)
    (hva : a.validate = b.validate)
    (hu : a.validate_user_data = b.validate_user_data)
    (hr : a.radius = b.radius)
    (hsa : a.seed = some k) (hsb : b.seed = some k)
    (hn : a.num_samples = b.num_samples)
    (e₁ e₂ : σ) (n : ℕ) :
    emitN ops sqrtA a e₁ n = emitN ops sqrtA b e₂ n := by
  have hab : a = b := by
    cases a
    cases b
    simp_all
  subst hab
  show emitted ops sqrtA (Iter.new ops a e₁) n = emitted ops sqrtA (Iter.new ops a e₂) n
  have hnew : Iter.new ops a e₁ = Iter.new ops a e₂ := by
    unfold Iter.new
    rw [hsa]
  rw [hnew]

/-- C6: Idempotent terminal state.  For every configuration and every RNG
behaviour, once a pull on the iterator has reported end of sequence (returned
`none`), every later pull also returns `none`: a failed pull has emptied the
active list, and `next` on an empty active list returns `none` without
touching the state. -/
theorem C6_exhausted_idempotent {N : ℕ} {U σ : Type} (ops : RngOps σ)
    (sqrtA : ℚ → ℚ) (cfg : Poisson N U) (entropy : σ) (n m : ℕ) (hnm : n ≤ m)
    (h : pullResult ops sqrtA (Iter.new ops cfg entropy) n = none) :
    pullResult ops sqrtA (Iter.new ops cfg entropy) m = none :=
  pullResult_none_mono ops sqrtA _ n m hnm h

/-- C6 witness: a concrete run (validation predicate rejects everything, so
the very first pull exhausts the iterator) where the first pull returns
`none` and so does the third. -/
theorem C6_exhausted_idempotent_witness :
    pullResult nullOps modelSqrt (Iter.new nullOps nullCfg cexEntropy) 2 = none :=
  C6_exhausted_idempotent nullOps modelSqrt nullCfg cexEntropy 0 2 (by omega)
    (by decide)

/-- C7: Domain containment.  For every configuration with any user-supplied
validation predicate and user data, every point emitted by the iterator
satisfies the validation predicate (which never changes during the run). -/
theorem C7_domain_containment {N : ℕ} {U σ : Type} (ops : RngOps σ)
    (sqrtA : ℚ → ℚ) (cfg : Poisson N U) (entropy : σ) (n : ℕ) (p : Point N)
    (hp : p ∈ emitN ops sqrtA cfg entropy n) :
    cfg.validate p cfg.validate_user_data = true :=
  emitted_validate ops sqrtA (Iter.new ops cfg entropy) n p hp

/-- C7 witness: the first point of the concrete scripted run is emitted and
satisfies the default box predicate. -/
theorem C7_domain_containment_witness :
    cexCfg.validate (mkPoint 2 [1/10, 13/100]) cexCfg.validate_user_data = true :=
  C7_domain_containment cexOps modelSqrt cexCfg cexEntropy 2 _
    (by rw [cex_emitN2]; exact List.mem_cons_self _ _)

/-- C8: Termination.  For every configuration with a positive radius and a
bounded domain (the validation predicate only accepts points of `[0,1)^N`, as
the default predicate does), the emitted sequence is finite: the number of
emitted points never exceeds the grid bound `(N * ceil(1/radius))^N`, some
pull at or before that bound returns `none` and every pull after it returns
`none` as well.  Moreover each individual call to `next()` terminates: the
inner while loop needs at most `active.length` rounds, so running the loop
with any larger fuel gives the same result. -/
theorem C8_termination {N : ℕ} {U σ : Type} (ops : RngOps σ) (sqrtA : ℚ → ℚ)
    (cfg : Poisson N U) (entropy : σ)
    (hr : 0 < cfg.radius)
    (hval : ∀ p u, cfg.validate p u = true → ∀ i, 0 ≤ p i ∧ p i < 1) :
    (∀ n, (emitN ops sqrtA cfg entropy n).length
        ≤ (N * Nat.ceil ((1 : ℚ) / cfg.radius)) ^ N) ∧
    (∃ n, n ≤ (N * Nat.ceil ((1 : ℚ) / cfg.radius)) ^ N ∧
      ∀ m, n ≤ m → pullResult ops sqrtA (Iter.new ops cfg entropy) m = none) ∧
    (∀ (it : Iter N U σ) (fuel : ℕ), it.active.length ≤ fuel →
      nextLoop ops sqrtA it fuel = Iter.next ops sqrtA it) := by
  have hlen : ∀ n, (emitN ops sqrtA cfg entropy n).length
      ≤ (N * Nat.ceil ((1 : ℚ) / cfg.radius)) ^ N := by
    intro n
    apply packing_bound cfg.radius hr
    · intro p hp i
      have hv := emitted_validate ops sqrtA (Iter.new ops cfg entropy) n p hp
      exact hval p cfg.validate_user_data hv i
    · have hpair := emitted_pairwise ops sqrtA (Iter.new ops cfg entropy) rfl n
      exact hpair
  refine ⟨hlen, ?_, fun it fuel h => nextLoop_fuel ops sqrtA fuel it h⟩
  obtain ⟨n, hn, hnone⟩ :=
    exists_pull_none ops sqrtA (Iter.new ops cfg entropy) _ hlen
  exact ⟨n, hn, fun m hm => pullResult_none_mono ops sqrtA _ n m hm hnone⟩

/-- C8 witness: the default 2-dimensional configuration (radius `0.1`, box
domain) with a concrete scripted RNG satisfies the hypotheses, giving the
bound `(2 * 10)^2 = 400` on the number of emitted points and a pull index at
or before 400 from which on every pull returns `none`. -/
theorem C8_termination_witness :
    (∀ n, (emitN nullOps modelSqrt (Poisson.defaultCfg 2 Unit) cexEntropy n).length
        ≤ (2 * Nat.ceil ((1 : ℚ) / (Poisson.defaultCfg 2 Unit).radius)) ^ 2) ∧
    (∃ n, n ≤ (2 * Nat.ceil ((1 : ℚ) / (Poisson.defaultCfg 2 Unit).radius)) ^ 2 ∧
      ∀ m, n ≤ m → pullResult nullOps modelSqrt
        (Iter.new nullOps (Poisson.defaultCfg 2 Unit) cexEntropy) m = none) ∧
    (∀ (it : Iter 2 Unit (List ℚ × List ℕ)) (fuel : ℕ),
      it.active.length ≤ fuel →
      nextLoop nullOps modelSqrt it fuel = Iter.next nullOps modelSqrt it) := by
  apply C8_termination nullOps modelSqrt (Poisson.defaultCfg 2 Unit) cexEntropy
  · norm_num [Poisson.defaultCfg]
  · intro p u h i
    have hb : ∀ j : Fin 2, 0 ≤ p j ∧ p j < 1 := of_decide_eq_true h
    exact hb i

/-- C9: configuration equality (`PartialEq for Poisson`) is false whenever
either side has no explicit seed — in particular an unseeded configuration is
not equal to itself (take `b = a`). -/
theorem C9_unseeded_never_equal {N : ℕ} {U : Type} (a b : Poisson N U)
    (h : a.seed = none ∨ b.seed = none) : Poisson.eq a b = false := by
  unfold Poisson.eq
  rcases h with h | h <;> simp [h]

/-- C9 witness: the default configuration (no seed) is not equal to itself. -/
theorem C9_unseeded_never_equal_witness :
    Poisson.eq (Poisson.defaultCfg 2 Unit) (Poisson.defaultCfg 2 Unit) = false :=
  C9_unseeded_never_equal _ _ (Or.inl rfl)

/-- C10: configuration equality compares only seed, radius and `num_samples`:
any two configurations with the same explicit seed, equal radius and equal
`num_samples` are equal, whatever their validation predicates and user data;
and two such equal configurations can emit different sequences (concretely,
`allCfg` accepts every point and emits one point on the first pull while the
equal configuration `nullCfg` rejects every point and emits nothing). -/
theorem C10_eq_ignores_validate :
    (∀ (N : ℕ) (U : Type) (a b : Poisson N U) (k : ℕ),
      a.seed = some k → b.seed = some k → a.radius = b.radius →
      a.num_samples = b.num_samples → Poisson.eq a b = true) ∧
    (Poisson.eq allCfg nullCfg = true ∧
      emitN nullOps modelSqrt allCfg cexEntropy 1 ≠
        emitN nullOps modelSqrt nullCfg cexEntropy 1) := by
  refine ⟨?_, ?_, ?_⟩
  · intro N U a b k h1 h2 h3 h4
    simp [Poisson.eq, h1, h2, h3, h4]
  · simp [Poisson.eq, allCfg, nullCfg, Poisson.with_seed, Poisson.with_validate,
      Poisson.defaultCfg]
  · decide

/-- C10 witness: two concrete configurations differing only in their
validation predicates are equal. -/
theorem C10_eq_ignores_validate_witness : Poisson.eq allCfg nullCfg = true :=
  C10_eq_ignores_validate.1 2 Unit allCfg nullCfg 7 rfl rfl rfl rfl

/-- C5 witness: the same seeded configuration run from two different entropy
values yields the same first emitted point list. -/
theorem C5_determinism_witness :
    emitN cexOps modelSqrt cexCfg cexEntropy 2 =
      emitN cexOps modelSqrt cexCfg ([5], [3]) 2 :=
  C5_determinism cexOps modelSqrt cexCfg cexCfg 0 rfl rfl rfl rfl rfl rfl
    cexEntropy ([5], [3]) 2

end FastPoisson
